import Mathlib

/-!
Verification of the habit-tracking rule engine in `habits.py`.

Note texts are modelled as `List Char`.  The Python `re` operations used by
the source (`re.search` / `re.sub` with the patterns `(\d+)`, `(\d+)\/(\d+)`
and `(\d+)\%`) act on maximal digit runs, so we first tokenize a character
list into maximal digit runs and single non-digit characters and define the
search/substitution functions on the token list.
-/

set_option autoImplicit false

namespace Habits

/-- A lexical token of a note text: a maximal run of decimal digits, or a
single non-digit character. -/
inductive Tok where
  | run (ds : List Char)
  | other (c : Char)
  deriving DecidableEq, Repr

/-- Tokenize a character list into maximal digit runs and single non-digit
characters. -/
def tokenize : List Char → List Tok
  | [] => []
  | c :: rest =>
    let ts := tokenize rest
    if c.isDigit then
      match ts with
      | Tok.run ds :: ts' => Tok.run (c :: ds) :: ts'
      | _ => Tok.run [c] :: ts
    else
      Tok.other c :: ts

/-- Flatten a token list back into characters. -/
def detok : List Tok → List Char
  | [] => []
  | Tok.run ds :: rest => ds ++ detok rest
  | Tok.other c :: rest => c :: detok rest

/-- Decimal value of a digit string, as Python's `int` computes it. -/
def digitsToNat (l : List Char) : ℕ :=
  l.foldl (fun a c => 10 * a + (c.toNat - 48)) 0

/-- Fueled helper for decimal rendering (`'{}'.format(n)` in the source). -/
def natToCharsAux : ℕ → ℕ → List Char → List Char
  | 0, _, acc => acc
  | fuel + 1, n, acc =>
    if n < 10 then Nat.digitChar n :: acc
    else natToCharsAux fuel (n / 10) (Nat.digitChar (n % 10) :: acc)

/-- Decimal rendering of a natural number, as Python's `str`/`format`. -/
def natToChars (n : ℕ) : List Char :=
  natToCharsAux (n + 1) n []

/-- `re.search(r'(\d+)', text)` followed by `int(res.group(1))`: the first
maximal digit run, as a number.  `none` models `res` being `None` (so that
`res.group(1)` raises). -/
def findNatTok : List Tok → Option ℕ
  | [] => none
  | Tok.other _ :: rest => findNatTok rest
  | Tok.run ds :: _ => some (digitsToNat ds)

/-- `re.sub(r'(\d+)', repl, text)`: replace every maximal digit run. -/
def subNatTok (repl : List Char) : List Tok → List Char
  | [] => []
  | Tok.other c :: rest => c :: subNatTok repl rest
  | Tok.run _ :: rest => repl ++ subNatTok repl rest

/-- Scanner for `(\d+)\/(\d+)` searches.  The state records a pending digit
run (already converted to a number) and whether a slash followed it. -/
def findFracAux : Option (ℕ × Bool) → List Tok → Option (ℕ × ℕ)
  | _, [] => none
  | none, Tok.other _ :: rest => findFracAux none rest
  | none, Tok.run ds :: rest => findFracAux (some (digitsToNat ds, false)) rest
  | some (a, false), Tok.other c :: rest =>
    if c = '/' then findFracAux (some (a, true)) rest else findFracAux none rest
  | some (_, false), Tok.run ds :: rest => findFracAux (some (digitsToNat ds, false)) rest
  | some (a, true), Tok.run ds :: _ => some (a, digitsToNat ds)
  | some (_, true), Tok.other _ :: rest => findFracAux none rest

/-- `re.search(r'(\d+)\/(\d+)', text)` with both groups read as numbers. -/
def findFracTok (ts : List Tok) : Option (ℕ × ℕ) := findFracAux none ts

/-- Scanner for `(\d+)\/(\d+)` substitution.  The state holds a pending,
not yet emitted digit run and whether a slash followed it. -/
def subFracAux (repl : List Char) : Option (List Char × Bool) → List Tok → List Char
  | none, [] => []
  | some (ds, false), [] => ds
  | some (ds, true), [] => ds ++ ['/']
  | none, Tok.other c :: rest => c :: subFracAux repl none rest
  | none, Tok.run ds :: rest => subFracAux repl (some (ds, false)) rest
  | some (ds, false), Tok.other c :: rest =>
    if c = '/' then subFracAux repl (some (ds, true)) rest
    else ds ++ c :: subFracAux repl none rest
  | some (ds, false), Tok.run ds₂ :: rest => ds ++ subFracAux repl (some (ds₂, false)) rest
  | some (_, true), Tok.run _ :: rest => repl ++ subFracAux repl none rest
  | some (ds, true), Tok.other c :: rest => ds ++ '/' :: c :: subFracAux repl none rest

/-- `re.sub(r'(\d+)\/(\d+)', repl, text)`: replace every (non-overlapping,
leftmost) occurrence of a digit run, a slash and a digit run. -/
def subFracTok (repl : List Char) (ts : List Tok) : List Char :=
  subFracAux repl none ts

/-- Scanner for `(\d+)\%` substitution, holding a pending digit run. -/
def subPctAux (repl : List Char) : Option (List Char) → List Tok → List Char
  | none, [] => []
  | some ds, [] => ds
  | none, Tok.other c :: rest => c :: subPctAux repl none rest
  | none, Tok.run ds :: rest => subPctAux repl (some ds) rest
  | some ds, Tok.other c :: rest =>
    if c = '%' then repl ++ subPctAux repl none rest
    else ds ++ c :: subPctAux repl none rest
  | some ds, Tok.run ds₂ :: rest => ds ++ subPctAux repl (some ds₂) rest

/-- `re.sub(r'(\d+)\%', repl, text)`: replace every occurrence of a digit
run followed by a percent sign. -/
def subPctTok (repl : List Char) (ts : List Tok) : List Char :=
  subPctAux repl none ts

/-- First maximal digit run of a text, as a number. -/
def findNat (l : List Char) : Option ℕ := findNatTok (tokenize l)

/-- First `digits/digits` occurrence of a text, as a pair of numbers. -/
def findFrac (l : List Char) : Option (ℕ × ℕ) := findFracTok (tokenize l)

/-- Replace every maximal digit run of a text. -/
def subAllNat (repl : List Char) (l : List Char) : List Char :=
  subNatTok repl (tokenize l)

/-- Replace every `digits/digits` occurrence of a text. -/
def subAllFrac (repl : List Char) (l : List Char) : List Char :=
  subFracTok repl (tokenize l)

/-- Replace every `digits%` occurrence of a text. -/
def subAllPct (repl : List Char) (l : List Char) : List Char :=
  subPctTok repl (tokenize l)

/-- The separator used in the task's visible content field. -/
def sepChars : List Char := [' ', '|', '|', ' ']

/-- Python's `text.split(' || ')[0]`: the prefix of `text` before the first
occurrence of the separator (all of `text` when the separator is absent). -/
def splitFirst : List Char → List Char
  | [] => []
  | c :: rest =>
    if sepChars.isPrefixOf (c :: rest) then []
    else c :: splitFirst rest

/-- Python's substring test `pat in text`. -/
def containsSub (pat : List Char) : List Char → Bool
  | [] => pat.isEmpty
  | c :: rest => pat.isPrefixOf (c :: rest) || containsSub pat rest

/-- Python's `text.split(t)[1]` for a single-character separator that is
known to occur: the characters after the first occurrence of `t`, up to the
next occurrence. -/
def afterFirst (t : Char) : List Char → List Char
  | [] => []
  | c :: rest => if c = t then rest.takeWhile (fun x => x != t) else afterFirst t rest

/-!
### IEEE-754 double-precision model for the percentage computation

`update_summary` computes `int(100.0*(cur + n)/(tot + 1))` with Python
floats, i.e. IEEE-754 binary64 arithmetic.  We model a nonnegative double
as an exact value `m * 2 ^ e` and implement correct rounding to nearest
with ties to even.  Overflow and subnormals are not modelled; all values
arising from the claims lie well inside the normal range.
-/

/-- Round `a / b` to the nearest integer, ties to even (`b > 0`). -/
def rneNat (a b : ℕ) : ℕ :=
  let q := a / b
  let r := a % b
  if 2 * r < b then q
  else if b < 2 * r then q + 1
  else if q % 2 = 0 then q else q + 1

/-- Fueled base-2 logarithm: `log2fuel f n` is `floor (log2 n)` for
`1 ≤ n < 2 ^ f`. -/
def log2fuel : ℕ → ℕ → ℕ
  | 0, _ => 0
  | f + 1, n => if n < 2 then 0 else log2fuel f (n / 2) + 1

/-- `floor (log2 n)` for `n ≥ 1` (the fuel `n` always suffices). -/
def natLog2 (n : ℕ) : ℕ := log2fuel n n

/-- Fueled search for the least `k` with `b ≤ a * 2 ^ k`. -/
def ceilLog2fuel : ℕ → ℕ → ℕ → ℕ
  | 0, _, _ => 0
  | f + 1, a, b => if b ≤ a then 0 else ceilLog2fuel f (2 * a) b + 1

/-- `floor (log2 (a / b))` as an integer, for `a, b ≥ 1`. -/
def floorLog2Rat (a b : ℕ) : ℤ :=
  if b ≤ a then (natLog2 (a / b) : ℤ)
  else -(ceilLog2fuel b a b : ℤ)

/-- Round the exact rational `a / b` (with `a ≥ 0`, `b ≥ 1`) to the nearest
binary64 value, returned as a mantissa/exponent pair `(m, e)` whose value is
`m * 2 ^ e` with `2 ^ 52 ≤ m ≤ 2 ^ 53` for `a ≠ 0`. -/
def flRat (a b : ℕ) : ℕ × ℤ :=
  if a = 0 then (0, 0)
  else
    let e : ℤ := floorLog2Rat a b - 52
    if 0 ≤ e then (rneNat a (b * 2 ^ e.toNat), e)
    else (rneNat (a * 2 ^ (-e).toNat) b, e)

/-- The percentage written by `update_summary`: Python's
`int(100.0*c/t)` where `c = cur + n` and `t = tot + 1`.  The integer `c` is
converted to binary64, multiplied by `100.0` (one rounding), divided by the
binary64 conversion of `t` (one rounding), then truncated toward zero. -/
def pyPercent (c t : ℕ) : ℕ :=
  let mc := flRat c 1
  let m1 :=
    if 0 ≤ mc.2 then flRat (100 * mc.1 * 2 ^ mc.2.toNat) 1
    else flRat (100 * mc.1) (2 ^ (-mc.2).toNat)
  let mt := flRat t 1
  let d : ℤ := m1.2 - mt.2
  let m2 :=
    if 0 ≤ d then flRat (m1.1 * 2 ^ d.toNat) mt.1
    else flRat m1.1 (mt.1 * 2 ^ (-d).toNat)
  if 0 ≤ m2.2 then m2.1 * 2 ^ m2.2.toNat else m2.1 / 2 ^ (-m2.2).toNat

/-!
### The task model

`TaskState` collects the mutable data of one habit task that `habits.py`
touches: the item's visible content, its due-date descriptor (`date` and
human-readable `string`), and the three counter note texts.  `writes`
records, most recent first, the update calls staged against the remote
service (`note.update`, `item.update`, `item.update_date_complete`).
-/

/-- One staged write against the remote service. -/
inductive WriteEv where
  | noteStreak (text : List Char)
  | noteWeek (text : List Char)
  | noteSummary (text : List Char)
  | itemContent (text : List Char)
  | itemDue (dueString : List Char) (dueDate : List Char)
  deriving DecidableEq, Repr

/-- The per-task state operated on by the `Task` methods. -/
structure TaskState where
  itemContent : List Char
  dueDate : List Char
  dueString : List Char
  summary : List Char
  week : List Char
  streak : List Char
  writes : List WriteEv
  deriving DecidableEq, Repr

/-- `Task.update_content`: replace everything after the first `' || '` of
the item's content (all of it when no separator is present) by the given
text, keeping the part before the separator. -/
def update_content (s : TaskState) (content : List Char) : TaskState :=
  let details := splitFirst s.itemContent
  let text := details ++ sepChars ++ content
  { s with itemContent := text, writes := WriteEv.itemContent text :: s.writes }

/-- `Task.increase_streak`: read the first digit run of the streak note,
add one, substitute it back, and mirror the new text into the item content.
`none` models the `AttributeError` raised by `res.group(1)` when the text
has no digits; in that case no write is staged by this method. -/
def increase_streak (s : TaskState) : Option TaskState :=
  match findNat s.streak with
  | none => none
  | some n =>
    let text := subAllNat (natToChars (n + 1)) s.streak
    some (update_content
      { s with streak := text, writes := WriteEv.noteStreak text :: s.writes } text)

/-- `Task.reset_streak`: substitute `0` for every digit run of the streak
note and mirror the text into the item content.  No parse is performed, so
this never raises. -/
def reset_streak (s : TaskState) : TaskState :=
  let text := subAllNat ['0'] s.streak
  update_content
    { s with streak := text, writes := WriteEv.noteStreak text :: s.writes } text

/-- `Task.update_week`: on a week start write `n/1` ignoring the current
text; otherwise parse `cur/tot` and write `cur+n/tot+1`.  `none` models the
`AttributeError` from `res.group(1)` on an unparsable non-week-start note. -/
def update_week (n : ℕ) (weekstart : Bool) (s : TaskState) : Option TaskState :=
  let res := findFrac s.week
  if weekstart then
    let days := natToChars n ++ '/' :: natToChars 1
    let text := subAllFrac days s.week
    some { s with week := text, writes := WriteEv.noteWeek text :: s.writes }
  else
    match res with
    | none => none
    | some (cur, tot) =>
      let days := natToChars (cur + n) ++ '/' :: natToChars (tot + 1)
      let text := subAllFrac days s.week
      some { s with week := text, writes := WriteEv.noteWeek text :: s.writes }

/-- `Task.update_summary`: parse `cur/tot`, write `cur+n/tot+1` and the
recomputed percentage.  `none` models the `AttributeError` from
`res.group(1)` on an unparsable note. -/
def update_summary (n : ℕ) (s : TaskState) : Option TaskState :=
  match findFrac s.summary with
  | none => none
  | some (cur, tot) =>
    let days := natToChars (cur + n) ++ '/' :: natToChars (tot + 1)
    let percentage := natToChars (pyPercent (cur + n) (tot + 1)) ++ ['%']
    let text := subAllPct percentage (subAllFrac days s.summary)
    some { s with summary := text, writes := WriteEv.noteSummary text :: s.writes }

/-- `Task.increase`: advance streak, summary and weekly counters. -/
def increase (weekstart : Bool) (s : TaskState) : Option TaskState :=
  (increase_streak s).bind fun s₁ =>
    (update_summary 1 s₁).bind fun s₂ =>
      update_week 1 weekstart s₂

/-- `Task.no_change`: unless `day_off`, reset the streak and advance the
summary/weekly totals; in every case reschedule the due date to `today`,
carrying over the time of day after a `'T'` when present and passing the
human-readable due string unchanged. -/
def no_change (today : List Char) (weekstart day_off : Bool) (s : TaskState) :
    Option TaskState :=
  let step : Option TaskState :=
    if day_off then some s
    else (update_summary 0 (reset_streak s)).bind fun s₁ => update_week 0 weekstart s₁
  step.map fun s₁ =>
    let newDate :=
      if s₁.dueDate.contains 'T' then today ++ 'T' :: afterFirst 'T' s₁.dueDate
      else today
    { s₁ with dueDate := newDate,
              writes := WriteEv.itemDue s₁.dueString newDate :: s₁.writes }

/-- `Task.is_due(today)`: literally `today not in self.due_date`, so it
returns `true` exactly when the task is NOT due today. -/
def is_due (s : TaskState) (today : List Char) : Bool :=
  !(containsSub today s.dueDate)

/-- The per-task branch of `Todoist.update_habit`: `no_change` when
`is_due` holds (today absent from the due date), `increase` otherwise. -/
def update_habit_step (today : List Char) (weekstart day_off : Bool) (s : TaskState) :
    Option TaskState :=
  if is_due s today then no_change today weekstart day_off s
  else increase weekstart s

/-!
### Canonical note texts

The render format the system itself writes: `Summary: a/b | p%`,
`Weekly: a/b`, `Streak: n days`.
-/

/-- The characters of the literal `Summary: `. -/
def sumHead : List Char := ['S', 'u', 'm', 'm', 'a', 'r', 'y', ':', ' ']

/-- The characters of the literal `Weekly: `. -/
def weekHead : List Char := ['W', 'e', 'e', 'k', 'l', 'y', ':', ' ']

/-- The characters of the literal `Streak: `. -/
def streakHead : List Char := ['S', 't', 'r', 'e', 'a', 'k', ':', ' ']

/-- The characters of the literal ` days`. -/
def daysTail : List Char := [' ', 'd', 'a', 'y', 's']

/-- The canonical summary note text `Summary: a/b | p%`. -/
def summaryText (a b p : ℕ) : List Char :=
  sumHead ++ (natToChars a ++ '/' :: natToChars b) ++
    (' ' :: '|' :: ' ' :: (natToChars p ++ ['%']))

/-- The canonical weekly note text `Weekly: a/b`. -/
def weeklyText (a b : ℕ) : List Char :=
  weekHead ++ (natToChars a ++ '/' :: natToChars b)

/-- The canonical streak note text `Streak: k days`. -/
def streakText (k : ℕ) : List Char :=
  streakHead ++ (natToChars k ++ daysTail)

/-!
### Concrete task states used to instantiate the claims
-/

/-- Concrete task used to instantiate claim C8: a time-bearing due date on
a day off. -/
def c8State : TaskState :=
  { itemContent := [], dueDate := ['2','0','2','4','-','0','1','-','0','5','T','0','9',':','0','0'],
    dueString := ['d','a','i','l','y'], summary := [], week := [], streak := [], writes := [] }

/-- Today's date used to instantiate claim C8. -/
def c8Today : List Char := ['2','0','2','4','-','0','1','-','0','6']

/-- The task state produced by `no_change` on `c8State`. -/
def c8After : TaskState :=
  { c8State with
    dueDate := c8Today ++ 'T' :: afterFirst 'T' c8State.dueDate,
    writes := [WriteEv.itemDue c8State.dueString
      (c8Today ++ 'T' :: afterFirst 'T' c8State.dueDate)] }

/-- Task whose content `"x ||"` refutes the unconditional idempotence in
claim C10. -/
def c10Bad : TaskState :=
  { itemContent := ['x', ' ', '|', '|'], dueDate := [], dueString := [],
    summary := [], week := [], streak := [], writes := [] }

/-- Tasks instantiating the two provisos of the amended claim C10. -/
def c10NoSep : TaskState :=
  { itemContent := ['a', 'b'], dueDate := [], dueString := [],
    summary := [], week := [], streak := [], writes := [] }

/-- A task whose content already contains the separator. -/
def c10Sep : TaskState :=
  { itemContent := ['a', ' ', '|', '|', ' ', 'b'], dueDate := [], dueString := [],
    summary := [], week := [], streak := [], writes := [] }

/-- A task whose streak note text `"Streak: no days"` has no digits, while
summary and weekly notes are well formed. -/
def c3State : TaskState :=
  { itemContent := ['M'], dueDate := ['2','0','2','4','-','0','1','-','0','1'],
    dueString := ['d','a','i','l','y'], summary := summaryText 0 0 0,
    week := weeklyText 0 0,
    streak := ['S','t','r','e','a','k',':',' ','n','o',' ','d','a','y','s'],
    writes := [] }

/-- Today's date used in the claim C3 counterexample. -/
def c3Today : List Char := ['2','0','2','4','-','0','1','-','0','2']

/-- A task state with all three counter notes unparsable. -/
def c3AllBad : TaskState :=
  { itemContent := [], dueDate := [], dueString := [], summary := ['S'],
    week := ['W'], streak := ['n','o'], writes := [] }

/-- Task carrying the summary text `Summary: 3/4 | 75%` of the claim C4
example. -/
def c4State : TaskState :=
  { itemContent := [], dueDate := [], dueString := [], summary := summaryText 3 4 75,
    week := [], streak := [], writes := [] }

/-- Summary state exhibiting the binary64 rounding divergence of claim C5. -/
def c5State : TaskState :=
  { itemContent := [], dueDate := [], dueString := [],
    summary := summaryText 720575940379286 1125899906842635 0,
    week := [], streak := [], writes := [] }

/-- Canonical task used to instantiate claims about counter updates. -/
def canonState : TaskState :=
  { itemContent := ['G','y','m',' ','|','|',' ','o','l','d'],
    dueDate := ['2','0','2','4','-','0','1','-','0','1'],
    dueString := ['d','a','i','l','y'],
    summary := summaryText 3 4 75, week := weeklyText 2 3, streak := streakText 5,
    writes := [] }

/-!
### Properties of decimal rendering and parsing
-/

lemma digitChar_isDigit : ∀ d, d < 10 → (Nat.digitChar d).isDigit = true := by decide

lemma digitChar_val : ∀ d, d < 10 → (Nat.digitChar d).toNat - 48 = d := by decide

lemma natToCharsAux_succ (fuel n : ℕ) (acc : List Char) :
    natToCharsAux (fuel + 1) n acc =
      if n < 10 then Nat.digitChar n :: acc
      else natToCharsAux fuel (n / 10) (Nat.digitChar (n % 10) :: acc) := rfl

lemma natToCharsAux_shape (fuel : ℕ) : ∀ n acc, ∃ pre,
    natToCharsAux (fuel + 1) n acc = pre ++ acc ∧ pre ≠ [] ∧
      pre.all Char.isDigit = true := by
  induction fuel with
  | zero =>
    intro n acc
    by_cases h : n < 10
    · exact ⟨[Nat.digitChar n], by simp [natToCharsAux_succ, h], by simp,
        by simp [digitChar_isDigit n h]⟩
    · refine ⟨[Nat.digitChar (n % 10)], ?_, by simp, ?_⟩
      · simp [natToCharsAux_succ, natToCharsAux, h]
      · simp [digitChar_isDigit (n % 10) (Nat.mod_lt n (by norm_num))]
  | succ f ih =>
    intro n acc
    by_cases h : n < 10
    · exact ⟨[Nat.digitChar n], by simp [natToCharsAux_succ, h], by simp,
        by simp [digitChar_isDigit n h]⟩
    · obtain ⟨pre, hpre, hne, hdig⟩ := ih (n / 10) (Nat.digitChar (n % 10) :: acc)
      refine ⟨pre ++ [Nat.digitChar (n % 10)], ?_, by simp, ?_⟩
      · rw [natToCharsAux_succ, if_neg h, hpre]
        simp
      · simp only [List.all_append, hdig, Bool.true_and, List.all_cons, List.all_nil,
          Bool.and_true]
        exact digitChar_isDigit (n % 10) (Nat.mod_lt n (by norm_num))

lemma natToChars_ne_nil (n : ℕ) : natToChars n ≠ [] := by
  obtain ⟨pre, hpre, hne, _⟩ := natToCharsAux_shape n n []
  unfold natToChars
  rw [hpre, List.append_nil]
  exact hne

lemma natToChars_isDigit (n : ℕ) : (natToChars n).all Char.isDigit = true := by
  obtain ⟨pre, hpre, _, hdig⟩ := natToCharsAux_shape n n []
  unfold natToChars
  rw [hpre, List.append_nil]
  exact hdig

lemma foldl_natToCharsAux (fuel : ℕ) : ∀ n acc, n < 10 ^ fuel →
    List.foldl (fun a c => 10 * a + (c.toNat - 48)) 0 (natToCharsAux fuel n acc) =
      List.foldl (fun a c => 10 * a + (c.toNat - 48)) n acc := by
  induction fuel with
  | zero =>
    intro n acc h
    have : n = 0 := by omega
    simp [natToCharsAux, this]
  | succ f ih =>
    intro n acc h
    by_cases hn : n < 10
    · rw [natToCharsAux_succ, if_pos hn]
      simp only [List.foldl_cons]
      rw [digitChar_val n hn]
      norm_num
    · rw [natToCharsAux_succ, if_neg hn]
      have hdiv : n / 10 < 10 ^ f := by
        rw [Nat.div_lt_iff_lt_mul (by norm_num)]
        calc n < 10 ^ (f + 1) := h
        _ = 10 ^ f * 10 := by rw [pow_succ]
      rw [ih (n / 10) _ hdiv]
      simp only [List.foldl_cons]
      rw [digitChar_val (n % 10) (Nat.mod_lt n (by norm_num))]
      congr 1
      omega

/-- Parsing inverts rendering: the decimal digits of `n` evaluate to `n`,
exactly as Python's `int` on the result of `format`. -/
lemma digitsToNat_natToChars (n : ℕ) : digitsToNat (natToChars n) = n := by
  have hlt : n < 10 ^ (n + 1) := by
    calc n < 2 ^ n := Nat.lt_two_pow n
    _ ≤ 10 ^ n := Nat.pow_le_pow_left (by norm_num) n
    _ ≤ 10 ^ (n + 1) := Nat.pow_le_pow_right (by norm_num) (Nat.le_succ n)
  unfold digitsToNat natToChars
  rw [foldl_natToCharsAux (n + 1) n [] hlt]
  simp

/-!
### Properties of the tokenizer
-/

lemma tokenize_cons_nondigit {c : Char} (h : c.isDigit = false) (l : List Char) :
    tokenize (c :: l) = Tok.other c :: tokenize l := by
  simp [tokenize, h]

lemma tokenize_others {hd : List Char} (h : hd.all (fun c => !c.isDigit) = true)
    (X : List Char) : tokenize (hd ++ X) = hd.map Tok.other ++ tokenize X := by
  induction hd with
  | nil => simp
  | cons c rest ih =>
    simp only [List.all_cons, Bool.and_eq_true, Bool.not_eq_true'] at h
    simp [tokenize_cons_nondigit h.1, ih h.2]

lemma tokenize_digit_cons {d : Char} (hd : d.isDigit = true) (l : List Char) :
    tokenize (d :: l) =
      (match tokenize l with
       | Tok.run ds :: ts' => Tok.run (d :: ds) :: ts'
       | _ => Tok.run [d] :: tokenize l) := by
  conv_lhs => rw [tokenize]
  simp [hd]

lemma tokenize_run_append {ds : List Char} (hne : ds ≠ [])
    (hdig : ds.all Char.isDigit = true) {c : Char} (hc : c.isDigit = false)
    (rest : List Char) :
    tokenize (ds ++ c :: rest) = Tok.run ds :: Tok.other c :: tokenize rest := by
  induction ds with
  | nil => exact absurd rfl hne
  | cons d ds' ih =>
    simp only [List.all_cons, Bool.and_eq_true] at hdig
    cases ds' with
    | nil =>
      show tokenize (d :: c :: rest) = _
      rw [tokenize_digit_cons hdig.1, tokenize_cons_nondigit hc]
    | cons e ds'' =>
      have hrec := ih (by simp) hdig.2
      simp only [List.cons_append] at hrec ⊢
      rw [tokenize_digit_cons hdig.1, hrec]

lemma tokenize_run_nil {ds : List Char} (hne : ds ≠ [])
    (hdig : ds.all Char.isDigit = true) : tokenize ds = [Tok.run ds] := by
  induction ds with
  | nil => exact absurd rfl hne
  | cons d ds' ih =>
    simp only [List.all_cons, Bool.and_eq_true] at hdig
    cases ds' with
    | nil => simp [tokenize, hdig.1]
    | cons e ds'' =>
      rw [tokenize_digit_cons hdig.1, ih (by simp) hdig.2]

/-- Flattening the token list recovers the original text. -/
lemma detok_tokenize : ∀ l, detok (tokenize l) = l := by
  intro l
  induction l with
  | nil => rfl
  | cons c rest ih =>
    by_cases h : c.isDigit
    · rw [tokenize_digit_cons h]
      cases htr : tokenize rest with
      | nil =>
        rw [htr] at ih
        simp only [detok] at ih
        simp [detok, ← ih]
      | cons t ts =>
        rw [htr] at ih
        cases t with
        | run ds =>
          simp only [detok] at ih ⊢
          simp [ih]
        | other c' =>
          simp only [detok] at ih ⊢
          simp [ih]
    · rw [tokenize_cons_nondigit (by simpa using h)]
      simp [detok, ih]

/-!
### Canonical-text computations
-/

lemma tokenize_summaryText (a b p : ℕ) :
    tokenize (summaryText a b p) =
      sumHead.map Tok.other ++
        Tok.run (natToChars a) :: Tok.other '/' :: Tok.run (natToChars b) ::
        Tok.other ' ' :: Tok.other '|' :: Tok.other ' ' ::
        Tok.run (natToChars p) :: [Tok.other '%'] := by
  unfold summaryText
  rw [List.append_assoc, tokenize_others (by decide)]
  congr 1
  rw [List.append_assoc, List.cons_append,
    tokenize_run_append (natToChars_ne_nil a) (natToChars_isDigit a) (by decide),
    tokenize_run_append (natToChars_ne_nil b) (natToChars_isDigit b) (by decide),
    tokenize_cons_nondigit (by decide), tokenize_cons_nondigit (by decide),
    tokenize_run_append (natToChars_ne_nil p) (natToChars_isDigit p) (by decide)]
  rfl

lemma findFrac_summaryText (a b p : ℕ) :
    findFrac (summaryText a b p) = some (a, b) := by
  unfold findFrac findFracTok
  rw [tokenize_summaryText]
  simp [sumHead, findFracAux, digitsToNat_natToChars]

lemma subFrac_summaryText (a b p : ℕ) (repl : List Char) :
    subAllFrac repl (summaryText a b p) =
      sumHead ++ repl ++ (' ' :: '|' :: ' ' :: (natToChars p ++ ['%'])) := by
  unfold subAllFrac subFracTok
  rw [tokenize_summaryText]
  simp [sumHead, subFracAux]

lemma subPct_summaryText (a b p q : ℕ) :
    subAllPct (natToChars q ++ ['%']) (summaryText a b p) = summaryText a b q := by
  unfold subAllPct subPctTok
  rw [tokenize_summaryText]
  simp [sumHead, subPctAux, summaryText]

lemma tokenize_weeklyText (a b : ℕ) :
    tokenize (weeklyText a b) =
      weekHead.map Tok.other ++
        Tok.run (natToChars a) :: Tok.other '/' :: [Tok.run (natToChars b)] := by
  unfold weeklyText
  rw [tokenize_others (by decide)]
  congr 1
  rw [tokenize_run_append (natToChars_ne_nil a) (natToChars_isDigit a) (by decide),
    tokenize_run_nil (natToChars_ne_nil b) (natToChars_isDigit b)]

lemma findFrac_weeklyText (a b : ℕ) : findFrac (weeklyText a b) = some (a, b) := by
  unfold findFrac findFracTok
  rw [tokenize_weeklyText]
  simp [weekHead, findFracAux, digitsToNat_natToChars]

lemma subFrac_weeklyText (a b : ℕ) (repl : List Char) :
    subAllFrac repl (weeklyText a b) = weekHead ++ repl := by
  unfold subAllFrac subFracTok
  rw [tokenize_weeklyText]
  simp [weekHead, subFracAux]

lemma tokenize_streakText (k : ℕ) :
    tokenize (streakText k) =
      streakHead.map Tok.other ++
        Tok.run (natToChars k) :: (daysTail.map Tok.other) := by
  unfold streakText
  rw [tokenize_others (by decide)]
  congr 1
  show tokenize (natToChars k ++ ' ' :: ['d', 'a', 'y', 's']) = _
  rw [tokenize_run_append (natToChars_ne_nil k) (natToChars_isDigit k) (by decide)]
  simp [daysTail, tokenize_cons_nondigit, tokenize]

lemma findNat_streakText (k : ℕ) : findNat (streakText k) = some k := by
  unfold findNat findNatTok
  rw [tokenize_streakText]
  simp [streakHead, findNatTok, daysTail, digitsToNat_natToChars]

lemma subNat_streakText (k : ℕ) (repl : List Char) :
    subAllNat repl (streakText k) = streakHead ++ repl ++ daysTail := by
  unfold subAllNat
  rw [tokenize_streakText]
  simp [streakHead, subNatTok, daysTail]

/-- If the streak text has no digit run, the substitution leaves it
byte-for-byte unchanged (and no error is raised by the scanner). -/
lemma subAllNat_of_findNat_none (repl : List Char) {l : List Char}
    (h : findNat l = none) : subAllNat repl l = l := by
  unfold findNat at h
  unfold subAllNat
  have key : ∀ ts, findNatTok ts = none → subNatTok repl ts = detok ts := by
    intro ts
    induction ts with
    | nil => intro; rfl
    | cons t rest ih =>
      cases t with
      | run ds => intro hfind; simp [findNatTok] at hfind
      | other c =>
        intro hfind
        rw [findNatTok] at hfind
        simp [subNatTok, detok, ih hfind]
  rw [key (tokenize l) h, detok_tokenize]

/-- If the weekly text has no fraction, the fraction substitution leaves it
byte-for-byte unchanged. -/
lemma subAllFrac_of_findFrac_none (repl : List Char) {l : List Char}
    (h : findFrac l = none) : subAllFrac repl l = l := by
  unfold findFrac findFracTok at h
  unfold subAllFrac subFracTok
  have key : ∀ ts,
      (findFracAux none ts = none → subFracAux repl none ts = detok ts) ∧
      (∀ ds, findFracAux (some (digitsToNat ds, false)) ts = none →
        subFracAux repl (some (ds, false)) ts = ds ++ detok ts) ∧
      (∀ ds, findFracAux (some (digitsToNat ds, true)) ts = none →
        subFracAux repl (some (ds, true)) ts = ds ++ '/' :: detok ts) := by
    intro ts
    induction ts with
    | nil =>
      exact ⟨fun _ => rfl, fun ds _ => by simp [subFracAux, detok],
        fun ds _ => by simp [subFracAux, detok]⟩
    | cons t rest ih =>
      obtain ⟨ih1, ih2, ih3⟩ := ih
      refine ⟨?_, ?_, ?_⟩
      · cases t with
        | run ds =>
          intro hfind
          rw [findFracAux] at hfind
          simp [subFracAux, detok, ih2 ds hfind]
        | other c =>
          intro hfind
          rw [findFracAux] at hfind
          simp [subFracAux, detok, ih1 hfind]
      · intro ds
        cases t with
        | run ds₂ =>
          intro hfind
          rw [findFracAux] at hfind
          simp [subFracAux, detok, ih2 ds₂ hfind]
        | other c =>
          intro hfind
          rw [findFracAux] at hfind
          by_cases hc : c = '/'
          · subst hc
            simp only [if_pos rfl] at hfind
            simp [subFracAux, detok, ih3 ds hfind]
          · simp only [if_neg hc] at hfind
            simp [subFracAux, detok, hc, ih1 hfind]
      · intro ds
        cases t with
        | run ds₂ =>
          intro hfind
          rw [findFracAux] at hfind
          simp at hfind
        | other c =>
          intro hfind
          rw [findFracAux] at hfind
          simp [subFracAux, detok, ih1 hfind]
  rw [(key (tokenize l)).1 h, detok_tokenize]

/-!
### Properties of the content separator
-/

lemma isPrefixOf_append_of_le {pat ys : List Char} (h : pat.length ≤ ys.length)
    (z₁ z₂ : List Char) : pat.isPrefixOf (ys ++ z₁) = pat.isPrefixOf (ys ++ z₂) := by
  induction pat generalizing ys with
  | nil => simp [List.isPrefixOf]
  | cons p ps ih =>
    cases ys with
    | nil => simp at h
    | cons y ys' =>
      simp only [List.cons_append, List.isPrefixOf]
      congr 1
      exact ih (by simpa using h)

lemma splitFirst_of_not_contains {l : List Char}
    (h : containsSub sepChars l = false) : splitFirst l = l := by
  induction l with
  | nil => rfl
  | cons c rest ih =>
    rw [containsSub] at h
    simp only [Bool.or_eq_false_iff] at h
    rw [splitFirst, if_neg (by simp [h.1]), ih h.2]

lemma containsSub_decomp {l : List Char} (h : containsSub sepChars l = true) :
    ∃ r, l = splitFirst l ++ sepChars ++ r := by
  induction l with
  | nil => simp [containsSub, sepChars] at h
  | cons c rest ih =>
    rw [containsSub] at h
    by_cases hp : sepChars.isPrefixOf (c :: rest) = true
    · obtain ⟨r, hr⟩ := List.isPrefixOf_iff_prefix.mp hp
      refine ⟨r, ?_⟩
      rw [splitFirst, if_pos hp]
      simpa using hr.symm
    · simp only [Bool.or_eq_true] at h
      rcases h with h1 | h2
      · exact absurd h1 hp
      obtain ⟨r, hr⟩ := ih h2
      refine ⟨r, ?_⟩
      rw [splitFirst, if_neg hp]
      simpa using congrArg (c :: ·) hr

lemma splitFirst_stable (P : List Char) : ∀ r t : List Char,
    splitFirst (P ++ sepChars ++ r) = P → splitFirst (P ++ sepChars ++ t) = P := by
  induction P with
  | nil =>
    intro r t _
    show splitFirst (sepChars ++ t) = []
    rw [show (sepChars ++ t : List Char) = ' ' :: ('|' :: '|' :: ' ' :: t) from rfl]
    rw [splitFirst, if_pos ?_]
    exact List.isPrefixOf_iff_prefix.mpr ⟨t, rfl⟩
  | cons c P' ih =>
    intro r t h
    have hshape : ∀ X : List Char, (c :: P') ++ sepChars ++ X = c :: (P' ++ sepChars ++ X) := by
      intro X; simp
    rw [hshape r] at h
    rw [splitFirst] at h
    by_cases hp : sepChars.isPrefixOf (c :: (P' ++ sepChars ++ r)) = true
    · rw [if_pos hp] at h
      exact absurd h.symm (List.cons_ne_nil c P')
    · rw [if_neg hp] at h
      have htail : splitFirst (P' ++ sepChars ++ r) = P' := (List.cons.inj h).2
      have hcond : sepChars.isPrefixOf (c :: (P' ++ sepChars ++ t)) =
          sepChars.isPrefixOf (c :: (P' ++ sepChars ++ r)) := by
        have e1 : (c :: (P' ++ sepChars ++ t)) = (c :: (P' ++ sepChars)) ++ t := by simp
        have e2 : (c :: (P' ++ sepChars ++ r)) = (c :: (P' ++ sepChars)) ++ r := by simp
        rw [e1, e2]
        exact isPrefixOf_append_of_le (by simp [sepChars]) t r
      rw [hshape t, splitFirst, if_neg (by rw [hcond]; exact hp)]
      rw [ih r t htail]

/-!
### Behaviour of the task operations on canonical states
-/

lemma update_content_fields (s : TaskState) (t : List Char) :
    (update_content s t).dueDate = s.dueDate ∧
    (update_content s t).dueString = s.dueString ∧
    (update_content s t).summary = s.summary ∧
    (update_content s t).week = s.week ∧
    (update_content s t).streak = s.streak := by
  simp [update_content]

lemma reset_streak_fields (s : TaskState) :
    (reset_streak s).dueDate = s.dueDate ∧
    (reset_streak s).dueString = s.dueString ∧
    (reset_streak s).summary = s.summary ∧
    (reset_streak s).week = s.week := by
  simp [reset_streak, update_content]

lemma update_summary_fields {n : ℕ} {s s' : TaskState}
    (h : update_summary n s = some s') :
    s'.streak = s.streak ∧ s'.itemContent = s.itemContent ∧ s'.week = s.week ∧
    s'.dueDate = s.dueDate ∧ s'.dueString = s.dueString := by
  unfold update_summary at h
  cases hf : findFrac s.summary with
  | none => rw [hf] at h; cases h
  | some v =>
    obtain ⟨cur, tot⟩ := v
    rw [hf] at h
    simp only [Option.some.injEq] at h
    rw [← h]
    simp

lemma update_week_fields {n : ℕ} {w : Bool} {s s' : TaskState}
    (h : update_week n w s = some s') :
    s'.streak = s.streak ∧ s'.itemContent = s.itemContent ∧ s'.summary = s.summary ∧
    s'.dueDate = s.dueDate ∧ s'.dueString = s.dueString := by
  unfold update_week at h
  cases w with
  | true =>
    rw [if_pos rfl] at h
    simp only [Option.some.injEq] at h
    rw [← h]
    simp
  | false =>
    rw [if_neg (by decide)] at h
    cases hf : findFrac s.week with
    | none => rw [hf] at h; cases h
    | some v =>
      obtain ⟨cur, tot⟩ := v
      rw [hf] at h
      simp only [Option.some.injEq] at h
      rw [← h]
      simp

/-- `update_summary` on a canonical summary text: both counters advance and
the percentage is recomputed by the binary64 formula. -/
lemma update_summary_canonical (n a b p : ℕ) {s : TaskState}
    (h : s.summary = summaryText a b p) :
    update_summary n s = some { s with
      summary := summaryText (a + n) (b + 1) (pyPercent (a + n) (b + 1)),
      writes := WriteEv.noteSummary
        (summaryText (a + n) (b + 1) (pyPercent (a + n) (b + 1))) :: s.writes } := by
  unfold update_summary
  rw [h, findFrac_summaryText]
  have htext : subAllPct (natToChars (pyPercent (a + n) (b + 1)) ++ ['%'])
      (subAllFrac (natToChars (a + n) ++ '/' :: natToChars (b + 1)) (summaryText a b p)) =
      summaryText (a + n) (b + 1) (pyPercent (a + n) (b + 1)) := by
    rw [subFrac_summaryText]
    rw [show sumHead ++ (natToChars (a + n) ++ '/' :: natToChars (b + 1)) ++
        (' ' :: '|' :: ' ' :: (natToChars p ++ ['%'])) = summaryText (a + n) (b + 1) p from rfl]
    rw [subPct_summaryText]
  simp only [htext]

/-- `update_week` on a week start: the weekly counter is reset to `n/1`
regardless of the prior fraction. -/
lemma update_week_start (n a b : ℕ) {s : TaskState} (h : s.week = weeklyText a b) :
    update_week n true s = some { s with
      week := weeklyText n 1,
      writes := WriteEv.noteWeek (weeklyText n 1) :: s.writes } := by
  unfold update_week
  rw [if_pos rfl, h]
  simp only [subFrac_weeklyText]
  simp only [weeklyText]

/-- `update_week` outside a week start on a canonical weekly text. -/
lemma update_week_acc (n a b : ℕ) {s : TaskState} (h : s.week = weeklyText a b) :
    update_week n false s = some { s with
      week := weeklyText (a + n) (b + 1),
      writes := WriteEv.noteWeek (weeklyText (a + n) (b + 1)) :: s.writes } := by
  unfold update_week
  rw [if_neg (by decide), h, findFrac_weeklyText]
  simp only [subFrac_weeklyText]
  simp only [weeklyText]

/-- `reset_streak` on a canonical streak text: the count becomes `0` and the
item content after the separator becomes the new streak text. -/
lemma reset_streak_canonical (k : ℕ) {s : TaskState} (h : s.streak = streakText k) :
    reset_streak s = { s with
      streak := streakText 0,
      itemContent := splitFirst s.itemContent ++ sepChars ++ streakText 0,
      writes := WriteEv.itemContent (splitFirst s.itemContent ++ sepChars ++ streakText 0) ::
        WriteEv.noteStreak (streakText 0) :: s.writes } := by
  have hrepl : streakHead ++ ['0'] ++ daysTail = streakText 0 := by decide
  unfold reset_streak update_content
  rw [h, subNat_streakText, hrepl]

/-- `increase_streak` on a canonical streak text: the count advances and the
item content after the separator becomes the new streak text. -/
lemma increase_streak_canonical (k : ℕ) {s : TaskState} (h : s.streak = streakText k) :
    increase_streak s = some { s with
      streak := streakText (k + 1),
      itemContent := splitFirst s.itemContent ++ sepChars ++ streakText (k + 1),
      writes := WriteEv.itemContent (splitFirst s.itemContent ++ sepChars ++ streakText (k + 1)) ::
        WriteEv.noteStreak (streakText (k + 1)) :: s.writes } := by
  have hrepl : streakHead ++ natToChars (k + 1) ++ daysTail = streakText (k + 1) := by
    unfold streakText
    simp [List.append_assoc]
  unfold increase_streak update_content
  rw [h, findNat_streakText]
  simp only [subNat_streakText, hrepl]

/-!
### The claims
-/

/-- Claim C1: for every habit task processed by `update_habit`, the
increment path (`increase`) is taken exactly when today's date string
occurs as a substring of the task's due-date field, the miss path
(`no_change`) exactly when it does not, and `is_due` (which literally
returns `today not in due_date`) is the dispatch predicate. -/
theorem claim1_dispatch (today : List Char) (w d : Bool) (s : TaskState) :
    is_due s today = !containsSub today s.dueDate ∧
    update_habit_step today w d s =
      (if containsSub today s.dueDate = true then increase w s
       else no_change today w d s) := by
  refine ⟨rfl, ?_⟩
  unfold update_habit_step is_due
  cases h : containsSub today s.dueDate with
  | true => simp [h]
  | false => simp [h]

/-- Claim C2: on a day off, `no_change` leaves the summary, weekly and
streak note texts and the item content byte-for-byte unchanged, yet still
rewrites the task's due date to today's date (with the original
time-of-day component appended after `T` when present). -/
theorem claim2_day_off_frame (today : List Char) (w : Bool) (s : TaskState) :
    ∃ s', no_change today w true s = some s' ∧
      s'.summary = s.summary ∧ s'.week = s.week ∧ s'.streak = s.streak ∧
      s'.itemContent = s.itemContent ∧
      s'.dueDate = (if s.dueDate.contains 'T' = true
        then today ++ 'T' :: afterFirst 'T' s.dueDate else today) := by
  have h : no_change today w true s = some { s with
      dueDate := (if s.dueDate.contains 'T' = true
        then today ++ 'T' :: afterFirst 'T' s.dueDate else today),
      writes := WriteEv.itemDue s.dueString
        (if s.dueDate.contains 'T' = true
          then today ++ 'T' :: afterFirst 'T' s.dueDate else today) :: s.writes } := by
    unfold no_change
    rw [if_pos rfl]
    rfl
  exact ⟨_, h, rfl, rfl, rfl, rfl, rfl⟩

/-- Claim C8: whenever `no_change` succeeds, the human-readable due string
is passed through unchanged and the due date is rewritten to today,
carrying the original time-of-day component (the part after `T`) exactly
when the original due value contained one. -/
theorem claim8_due_rewrite (today : List Char) (w d : Bool) (s s' : TaskState)
    (h : no_change today w d s = some s') :
    s'.dueString = s.dueString ∧
    s'.dueDate = (if s.dueDate.contains 'T' = true
      then today ++ 'T' :: afterFirst 'T' s.dueDate else today) := by
  unfold no_change at h
  cases d with
  | true =>
    rw [if_pos rfl] at h
    simp only [Option.map_some', Option.some.injEq] at h
    rw [← h]
    exact ⟨rfl, rfl⟩
  | false =>
    rw [if_neg (by decide)] at h
    cases h₁ : update_summary 0 (reset_streak s) with
    | none => rw [h₁] at h; simp at h
    | some s₁ =>
      rw [h₁] at h
      simp only [Option.some_bind] at h
      cases h₂ : update_week 0 w s₁ with
      | none => rw [h₂] at h; simp at h
      | some s₂ =>
        rw [h₂] at h
        simp only [Option.some_bind, Option.map_some', Option.some.injEq] at h
        have f₁ := update_summary_fields h₁
        have f₂ := update_week_fields h₂
        have fr := reset_streak_fields s
        have hdd : s₂.dueDate = s.dueDate := by
          rw [f₂.2.2.2.1, f₁.2.2.2.1, fr.1]
        have hds : s₂.dueString = s.dueString := by
          rw [f₂.2.2.2.2, f₁.2.2.2.2, fr.2.1]
        rw [← h]
        constructor
        · exact hds
        · rw [show ({ s₂ with
            dueDate := (if s₂.dueDate.contains 'T' = true
              then today ++ 'T' :: afterFirst 'T' s₂.dueDate else today),
            writes := WriteEv.itemDue s₂.dueString
              (if s₂.dueDate.contains 'T' = true
                then today ++ 'T' :: afterFirst 'T' s₂.dueDate else today) ::
              s₂.writes } : TaskState).dueDate =
            (if s₂.dueDate.contains 'T' = true
              then today ++ 'T' :: afterFirst 'T' s₂.dueDate else today) from rfl]
          rw [hdd]

/-- Witness for claim C8 at a concrete task. -/
theorem claim8_due_rewrite_witness :
    c8After.dueString = c8State.dueString ∧
    c8After.dueDate = (if c8State.dueDate.contains 'T' = true
      then c8Today ++ 'T' :: afterFirst 'T' c8State.dueDate else c8Today) :=
  claim8_due_rewrite c8Today false true c8State c8After (by decide)

/-- Claim C10 (amended): `update_content` sets the item content to
`p ++ " || " ++ t` where `p` is the prefix of the old content before the
first separator occurrence (all of it when no separator is present, so a
separator is introduced), discarding everything after the first separator;
applying it twice with the same text equals applying it once PROVIDED the
original content already contains the separator — without that proviso a
content such as `"x ||"` forms an earlier separator at the junction and the
second application differs. -/
theorem claim10_update_content (s : TaskState) (t : List Char) :
    (update_content s t).itemContent = splitFirst s.itemContent ++ sepChars ++ t ∧
    (containsSub sepChars s.itemContent = false →
      splitFirst s.itemContent = s.itemContent) ∧
    (containsSub sepChars s.itemContent = true →
      (update_content (update_content s t) t).itemContent =
        (update_content s t).itemContent) := by
  refine ⟨rfl, fun h => splitFirst_of_not_contains h, fun h => ?_⟩
  obtain ⟨r, hr⟩ := containsSub_decomp h
  have hstab : splitFirst (splitFirst s.itemContent ++ sepChars ++ t) =
      splitFirst s.itemContent := by
    apply splitFirst_stable _ r t
    rw [← hr]
  show splitFirst (splitFirst s.itemContent ++ sepChars ++ t) ++ sepChars ++ t =
    splitFirst s.itemContent ++ sepChars ++ t
  rw [hstab]

/-- Counterexample to claim C10 as stated: on content `"x ||"` the second
`update_content` with the same text changes the content again. -/
theorem claim10_counterexample :
    (update_content (update_content c10Bad ['s']) ['s']).itemContent ≠
      (update_content c10Bad ['s']).itemContent := by decide

/-- Witness for the amended claim C10 at concrete contents. -/
theorem claim10_update_content_witness :
    splitFirst c10NoSep.itemContent = c10NoSep.itemContent ∧
    (update_content (update_content c10Sep ['s']) ['s']).itemContent =
      (update_content c10Sep ['s']).itemContent :=
  ⟨(claim10_update_content c10NoSep ['s']).2.1 (by decide),
   (claim10_update_content c10Sep ['s']).2.2 (by decide)⟩

/-- Counterexample to claim C3 as stated: the streak note lacks the numeric
pattern (`findNat` is `none`), yet the miss path `no_change` raises no
error, silently writes the unparsable note text back unchanged, and
completes. -/
theorem claim3_counterexample :
    findNat c3State.streak = none ∧
    (no_change c3Today false false c3State).isSome = true ∧
    (no_change c3Today false false c3State).map TaskState.streak =
      some c3State.streak ∧
    (no_change c3Today false false c3State).map
      (fun s' => s'.writes.contains (WriteEv.noteStreak c3State.streak)) =
      some true := by decide

/-- Claim C3 (amended): the operations that parse a counter value —
`increase_streak`, `update_summary`, and `update_week` outside a week
start — raise before staging any write when the numeric pattern is absent;
but `reset_streak` and week-start `update_week` never parse: on
pattern-free text they raise no error and write the text back unchanged. -/
theorem claim3_parse_errors (s : TaskState) (n : ℕ) :
    (findNat s.streak = none → increase_streak s = none) ∧
    (findFrac s.summary = none → update_summary n s = none) ∧
    (findFrac s.week = none → update_week n false s = none) ∧
    (findNat s.streak = none →
      (reset_streak s).streak = s.streak ∧
      WriteEv.noteStreak s.streak ∈ (reset_streak s).writes) ∧
    (findFrac s.week = none →
      ∃ s', update_week n true s = some s' ∧ s'.week = s.week) := by
  refine ⟨?_, ?_, ?_, ?_, ?_⟩
  · intro h
    unfold increase_streak
    rw [h]
  · intro h
    unfold update_summary
    rw [h]
  · intro h
    unfold update_week
    rw [if_neg (by decide), h]
  · intro h
    have htext : subAllNat ['0'] s.streak = s.streak := subAllNat_of_findNat_none _ h
    unfold reset_streak update_content
    rw [htext]
    exact ⟨rfl, by simp⟩
  · intro h
    have htext : subAllFrac (natToChars n ++ '/' :: natToChars 1) s.week = s.week :=
      subAllFrac_of_findFrac_none _ h
    unfold update_week
    rw [if_pos rfl]
    exact ⟨_, rfl, htext⟩

/-- Witness for the amended claim C3 at a concrete unparsable state. -/
theorem claim3_parse_errors_witness :
    increase_streak c3AllBad = none ∧
    update_summary 0 c3AllBad = none ∧
    update_week 0 false c3AllBad = none ∧
    ((reset_streak c3AllBad).streak = c3AllBad.streak ∧
      WriteEv.noteStreak c3AllBad.streak ∈ (reset_streak c3AllBad).writes) ∧
    (∃ s', update_week 0 true c3AllBad = some s' ∧ s'.week = c3AllBad.week) :=
  ⟨(claim3_parse_errors c3AllBad 0).1 (by decide),
   (claim3_parse_errors c3AllBad 0).2.1 (by decide),
   (claim3_parse_errors c3AllBad 0).2.2.1 (by decide),
   (claim3_parse_errors c3AllBad 0).2.2.2.1 (by decide),
   (claim3_parse_errors c3AllBad 0).2.2.2.2 (by decide)⟩

/-- Claim C4: on a hit, the summary's completed and total counts each
advance by exactly one and the percentage is recomputed. -/
theorem claim4_summary_hit (a b p : ℕ) (s : TaskState)
    (h : s.summary = summaryText a b p) :
    update_summary 1 s = some { s with
      summary := summaryText (a + 1) (b + 1) (pyPercent (a + 1) (b + 1)),
      writes := WriteEv.noteSummary
        (summaryText (a + 1) (b + 1) (pyPercent (a + 1) (b + 1))) :: s.writes } :=
  update_summary_canonical 1 a b p h

/-- Witness for claim C4: from `Summary: 3/4 | 75%` a hit produces
`Summary: 4/5 | 80%`. -/
theorem claim4_summary_hit_witness :
    update_summary 1 c4State = some { c4State with
      summary := summaryText 4 5 (pyPercent 4 5),
      writes := [WriteEv.noteSummary (summaryText 4 5 (pyPercent 4 5))] } ∧
    summaryText 3 4 75 =
      ['S','u','m','m','a','r','y',':',' ','3','/','4',' ','|',' ','7','5','%'] ∧
    pyPercent 4 5 = 80 ∧
    summaryText 4 5 (pyPercent 4 5) =
      ['S','u','m','m','a','r','y',':',' ','4','/','5',' ','|',' ','8','0','%'] :=
  ⟨claim4_summary_hit 3 4 75 c4State rfl, by decide, by decide, by decide⟩

/-- Claim C5 evidence: the code's percentage `int(100.0*c/t)` (binary64,
modelled by `pyPercent`) is 64 at `c = 720575940379287`,
`t = 1125899906842636`, while the exact integer floor is 63; the summary
update therefore writes `64%` where the claim demands `63%`. -/
theorem claim5_float_divergence :
    pyPercent 720575940379287 1125899906842636 = 64 ∧
    100 * 720575940379287 / 1125899906842636 = 63 ∧
    (update_summary 1 c5State).map TaskState.summary =
      some (summaryText 720575940379287 1125899906842636 64) := by
  refine ⟨by decide, by decide, ?_⟩
  rw [update_summary_canonical 1 720575940379286 1125899906842635 0 rfl]
  simp only [Option.map_some']
  congr 1

/-!
### Field-level forms of the canonical-state lemmas, for chaining
-/

lemma reset_streak_c (k : ℕ) {s : TaskState} (h : s.streak = streakText k) :
    (reset_streak s).streak = streakText 0 ∧
    (reset_streak s).itemContent = splitFirst s.itemContent ++ sepChars ++ streakText 0 ∧
    (reset_streak s).summary = s.summary ∧
    (reset_streak s).week = s.week ∧
    (reset_streak s).dueDate = s.dueDate ∧
    (reset_streak s).dueString = s.dueString := by
  have e := reset_streak_canonical k h
  exact ⟨by rw [e], by rw [e], by rw [e], by rw [e], by rw [e], by rw [e]⟩

lemma increase_streak_c (k : ℕ) {s : TaskState} (h : s.streak = streakText k) :
    ∃ s₁, increase_streak s = some s₁ ∧
      s₁.streak = streakText (k + 1) ∧
      s₁.itemContent = splitFirst s.itemContent ++ sepChars ++ streakText (k + 1) ∧
      s₁.summary = s.summary ∧ s₁.week = s.week ∧
      s₁.dueDate = s.dueDate ∧ s₁.dueString = s.dueString :=
  ⟨_, increase_streak_canonical k h, rfl, rfl, rfl, rfl, rfl, rfl⟩

lemma update_summary_c (n a b p : ℕ) {s : TaskState} (h : s.summary = summaryText a b p) :
    ∃ s₁, update_summary n s = some s₁ ∧
      s₁.summary = summaryText (a + n) (b + 1) (pyPercent (a + n) (b + 1)) ∧
      s₁.streak = s.streak ∧ s₁.itemContent = s.itemContent ∧ s₁.week = s.week ∧
      s₁.dueDate = s.dueDate ∧ s₁.dueString = s.dueString :=
  ⟨_, update_summary_canonical n a b p h, rfl, rfl, rfl, rfl, rfl, rfl⟩

lemma update_week_c (n : ℕ) (w : Bool) (a b : ℕ) {s : TaskState}
    (h : s.week = weeklyText a b) :
    ∃ s₁, update_week n w s = some s₁ ∧
      s₁.week = (if w then weeklyText n 1 else weeklyText (a + n) (b + 1)) ∧
      s₁.streak = s.streak ∧ s₁.itemContent = s.itemContent ∧ s₁.summary = s.summary ∧
      s₁.dueDate = s.dueDate ∧ s₁.dueString = s.dueString := by
  cases w with
  | true => exact ⟨_, update_week_start n a b h, rfl, rfl, rfl, rfl, rfl, rfl⟩
  | false => exact ⟨_, update_week_acc n a b h, rfl, rfl, rfl, rfl, rfl, rfl⟩

/-- Claim C6: for every prior streak count `k` — in particular any state
reached by repeated `increase` — `no_change` with `day_off = false` sets
the streak note text to `Streak: 0 days` and sets the item content after
the `" || "` separator to that rendered streak text. -/
theorem claim6_reset_streak (k a b p c d : ℕ) (today : List Char) (w : Bool)
    (s : TaskState) (hst : s.streak = streakText k)
    (hsu : s.summary = summaryText a b p) (hwk : s.week = weeklyText c d) :
    ∃ s', no_change today w false s = some s' ∧
      s'.streak = streakText 0 ∧
      streakText 0 = ['S','t','r','e','a','k',':',' ','0',' ','d','a','y','s'] ∧
      s'.itemContent = splitFirst s.itemContent ++ sepChars ++ streakText 0 := by
  have r := reset_streak_c k hst
  obtain ⟨s₂, e₂, hsum₂, hstr₂, hcon₂, hwek₂, _, _⟩ :=
    update_summary_c 0 a b p (show (reset_streak s).summary = summaryText a b p by
      rw [r.2.2.1]; exact hsu)
  obtain ⟨s₃, e₃, hwek₃, hstr₃, hcon₃, _, _, _⟩ :=
    update_week_c 0 w c d (show s₂.week = weeklyText c d by
      rw [hwek₂, r.2.2.2.1]; exact hwk)
  unfold no_change
  rw [if_neg (by decide), e₂]
  simp only [Option.some_bind]
  rw [e₃]
  simp only [Option.map_some']
  refine ⟨_, rfl, ?_, by decide, ?_⟩
  · show s₃.streak = streakText 0
    rw [hstr₃, hstr₂, r.1]
  · show s₃.itemContent = splitFirst s.itemContent ++ sepChars ++ streakText 0
    rw [hcon₃, hcon₂, r.2.1]

/-- Witness for claim C6 at a concrete canonical task with streak 5. -/
theorem claim6_reset_streak_witness :
    ∃ s', no_change ['2','0','2','4','-','0','1','-','0','2'] false false canonState = some s' ∧
      s'.streak = streakText 0 ∧
      streakText 0 = ['S','t','r','e','a','k',':',' ','0',' ','d','a','y','s'] ∧
      s'.itemContent = splitFirst canonState.itemContent ++ sepChars ++ streakText 0 :=
  claim6_reset_streak 5 3 4 75 2 3 ['2','0','2','4','-','0','1','-','0','2'] false
    canonState rfl rfl rfl

/-- Claim C7: on a week-start day the weekly counter is reset ignoring its
prior value: `increase` writes `Weekly: 1/1` regardless of the prior
fraction, and a non-day-off miss (`no_change`) writes `Weekly: 0/1`. -/
theorem claim7_weekstart_reset (k a b p c d : ℕ) (today : List Char)
    (s : TaskState) (hst : s.streak = streakText k)
    (hsu : s.summary = summaryText a b p) (hwk : s.week = weeklyText c d) :
    (∃ s₁, increase true s = some s₁ ∧ s₁.week = weeklyText 1 1) ∧
    (∃ s₂, no_change today true false s = some s₂ ∧ s₂.week = weeklyText 0 1) ∧
    weeklyText 1 1 = ['W','e','e','k','l','y',':',' ','1','/','1'] ∧
    weeklyText 0 1 = ['W','e','e','k','l','y',':',' ','0','/','1'] := by
  refine ⟨?_, ?_, by decide, by decide⟩
  · obtain ⟨t₁, e₁, hstr₁, hcon₁, hsum₁, hwek₁, _, _⟩ := increase_streak_c k hst
    obtain ⟨t₂, e₂, hsum₂, hstr₂, hcon₂, hwek₂, _, _⟩ :=
      update_summary_c 1 a b p (show t₁.summary = summaryText a b p by
        rw [hsum₁]; exact hsu)
    obtain ⟨t₃, e₃, hwek₃, _, _, _, _, _⟩ :=
      update_week_c 1 true c d (show t₂.week = weeklyText c d by
        rw [hwek₂, hwek₁]; exact hwk)
    unfold increase
    rw [e₁]
    simp only [Option.some_bind]
    rw [e₂]
    simp only [Option.some_bind]
    rw [e₃]
    exact ⟨_, rfl, by rw [hwek₃]; rfl⟩
  · have r := reset_streak_c k hst
    obtain ⟨s₂, e₂, hsum₂, hstr₂, hcon₂, hwek₂, _, _⟩ :=
      update_summary_c 0 a b p (show (reset_streak s).summary = summaryText a b p by
        rw [r.2.2.1]; exact hsu)
    obtain ⟨s₃, e₃, hwek₃, _, _, _, _, _⟩ :=
      update_week_c 0 true c d (show s₂.week = weeklyText c d by
        rw [hwek₂, r.2.2.2.1]; exact hwk)
    unfold no_change
    rw [if_neg (by decide), e₂]
    simp only [Option.some_bind]
    rw [e₃]
    simp only [Option.map_some']
    refine ⟨_, rfl, ?_⟩
    show s₃.week = weeklyText 0 1
    rw [hwek₃]
    rfl

/-- Witness for claim C7 at a concrete canonical task. -/
theorem claim7_weekstart_reset_witness :
    (∃ s₁, increase true canonState = some s₁ ∧ s₁.week = weeklyText 1 1) ∧
    (∃ s₂, no_change ['2','0','2','4','-','0','1','-','0','2'] true false canonState = some s₂ ∧
      s₂.week = weeklyText 0 1) ∧
    weeklyText 1 1 = ['W','e','e','k','l','y',':',' ','1','/','1'] ∧
    weeklyText 0 1 = ['W','e','e','k','l','y',':',' ','0','/','1'] :=
  claim7_weekstart_reset 5 3 4 75 2 3 ['2','0','2','4','-','0','1','-','0','2']
    canonState rfl rfl rfl

/-- Claim C9: starting from counter states with `completed ≤ total`, every
summary or weekly update (hit or miss, week start or not) preserves
`completed ≤ total` and leaves the total at least 1, so the percentage
computation never divides by zero. -/
theorem claim9_invariant (n : ℕ) (w : Bool) (a b c d p : ℕ) (s : TaskState)
    (hn : n ≤ 1) (hab : a ≤ b) (hcd : c ≤ d)
    (hsu : s.summary = summaryText a b p) (hwk : s.week = weeklyText c d) :
    (∃ s₁ a' b' p', update_summary n s = some s₁ ∧
      s₁.summary = summaryText a' b' p' ∧ a' ≤ b' ∧ 1 ≤ b') ∧
    (∃ s₂ c' d', update_week n w s = some s₂ ∧
      s₂.week = weeklyText c' d' ∧ c' ≤ d' ∧ 1 ≤ d') := by
  constructor
  · exact ⟨_, a + n, b + 1, pyPercent (a + n) (b + 1),
      update_summary_canonical n a b p hsu, rfl, by omega, by omega⟩
  · cases w with
    | true =>
      exact ⟨_, n, 1, update_week_start n c d hwk, rfl, hn, le_rfl⟩
    | false =>
      exact ⟨_, c + n, d + 1, update_week_acc n c d hwk, rfl, by omega, by omega⟩

/-- Witness for claim C9 at a concrete canonical task (hit, non week
start). -/
theorem claim9_invariant_witness :
    (∃ s₁ a' b' p', update_summary 1 canonState = some s₁ ∧
      s₁.summary = summaryText a' b' p' ∧ a' ≤ b' ∧ 1 ≤ b') ∧
    (∃ s₂ c' d', update_week 1 false canonState = some s₂ ∧
      s₂.week = weeklyText c' d' ∧ c' ≤ d' ∧ 1 ≤ d') :=
  claim9_invariant 1 false 3 4 2 3 75 canonState (by decide) (by decide) (by decide)
    rfl rfl

end Habits
